import Mathlib

/-!
Shallow embedding of the txt-to-pdf converter (src/main.cpp).

Conventions of the embedding:
* C++ `std::string` bytes are modelled by Lean `String` / `List Char`
  (all syntax-relevant characters are ASCII).
* C++ `int` is modelled by `Int` (the program never exercises overflow on
  the values the claims are about; `atoi` overflow is undefined behaviour
  in C and is modelled by the exact integer).
* C++ `float` positions and colors are modelled by `Rat`.  Every value the
  program computes here is a small dyadic rational (multiples of 1/4 with
  magnitude below 2^20), on which IEEE single-precision arithmetic is
  exact, so the rational model coincides with the float computation.
* File I/O is modelled by passing the file contents (an `Option String`)
  and an output-writability flag into `mainModel`.
-/

namespace TxtToPdf

/-- C `isspace` in the default locale: space, tab, newline, vertical tab,
form feed, carriage return. -/
def isSpaceC (c : Char) : Bool :=
  c = ' ' || c = '\t' || c = '\n' || c = '\x0b' || c = '\x0c' || c = '\r'

/-- Characters of `Trim`: drop `isSpaceC` characters from both ends
(`Trim` in src/main.cpp, lines 11-21). -/
def trimChars (l : List Char) : List Char :=
  ((l.dropWhile isSpaceC).reverse.dropWhile isSpaceC).reverse

/-- Embeds `Trim` (src/main.cpp lines 11-21). -/
def Trim (s : String) : String :=
  String.mk (trimChars s.data)

/-- C `tolower` in the default locale: ASCII uppercase to lowercase. -/
def toLowerC (c : Char) : Char :=
  if 'A' ≤ c ∧ c ≤ 'Z' then Char.ofNat (c.toNat + 32) else c

/-- Embeds `ToLower` (src/main.cpp lines 23-30). -/
def ToLower (s : String) : String :=
  String.mk (s.data.map toLowerC)

/-- Worker loop of `SplitByComma`: `cur` is the `current` accumulator. -/
def splitGo : List Char → List Char → List String
  | [], cur => if cur.isEmpty then [] else [Trim (String.mk cur)]
  | c :: cs, cur =>
    if c = ',' then Trim (String.mk cur) :: splitGo cs []
    else splitGo cs (cur ++ [c])

/-- Embeds `SplitByComma` (src/main.cpp lines 32-48): push the trimmed
accumulator at every comma; after the loop push the trimmed accumulator
only if it is non-empty (before trimming). -/
def SplitByComma (s : String) : List String :=
  splitGo s.data []

/-- Characters of `EscapePdfString`: prefix a backslash before the three
special characters. -/
def escChars : List Char → List Char
  | [] => []
  | c :: cs =>
    (if c = '(' ∨ c = ')' ∨ c = '\\' then ['\\', c] else [c]) ++ escChars cs

/-- Embeds `EscapePdfString` (src/main.cpp lines 51-61). -/
def EscapePdfString (s : String) : String :=
  String.mk (escChars s.data)

/-- Embeds the `TextAlign` enum. -/
inductive TextAlign where
  | left
  | center
  | right
deriving Repr, DecidableEq

/-- Embeds struct `LineSpec` (src/main.cpp lines 71-79); `r g b` are the
color channels. -/
structure LineSpec where
  text : String
  fontSize : Int
  r : Rat
  g : Rat
  b : Rat
  align : TextAlign
  bottomAnchor : Bool
deriving Repr, DecidableEq

/-- Embeds struct `PageSpec` (src/main.cpp lines 81-83). -/
structure PageSpec where
  lines : List LineSpec
deriving Repr, DecidableEq

/-- Embeds `ColorFromName` (src/main.cpp lines 86-104), returning the
`(r, g, b)` triple it assigns through out-parameters. -/
def ColorFromName (name : String) : Rat × Rat × Rat :=
  let n := ToLower (Trim name)
  if n = "black" then (0, 0, 0)
  else if n = "white" then (1, 1, 1)
  else if n = "red" then (1, 0, 0)
  else if n = "green" then (0, 1, 0)
  else if n = "blue" then (0, 0, 1)
  else if n = "gray" ∨ n = "grey" then (1/2, 1/2, 1/2)
  else (0, 0, 0)

/-- Embeds `AlignFromName` (src/main.cpp lines 107-115). -/
def AlignFromName (name : String) : TextAlign :=
  let n := ToLower (Trim name)
  if n = "center" then TextAlign.center
  else if n = "right" then TextAlign.right
  else TextAlign.left

/-- Value of the digit run at the head of the list, for `atoi`. -/
def digitsVal : List Char → Nat
  | [] => 0
  | c :: cs =>
    if c.isDigit then
      ((c :: cs).takeWhile Char.isDigit).foldl
        (fun a d => a * 10 + (d.toNat - 48)) 0
    else 0

/-- Embeds C `atoi`: skip leading whitespace, optional sign, then the
longest digit prefix; no digits gives 0. -/
def atoi (s : String) : Int :=
  match s.data.dropWhile isSpaceC with
  | '-' :: rest => -(digitsVal rest : Int)
  | '+' :: rest => (digitsVal rest : Int)
  | rest => (digitsVal rest : Int)

/-- Index of the first occurrence of `//`, as `std::string::find("//")`. -/
def findSlashSlash : List Char → Option Nat
  | '/' :: '/' :: _ => some 0
  | _ :: rest => (findSlashSlash rest).map (· + 1)
  | [] => none

/-- Index of the first `']'`, as `std::string::find(']')`. -/
def findCloseBracket : List Char → Option Nat
  | [] => none
  | c :: rest =>
    if c = ']' then some 0 else (findCloseBracket rest).map (· + 1)

/-- Portion of a raw input line before the first `//`
(src/main.cpp lines 136-139). -/
def stripComment (raw : String) : String :=
  match findSlashSlash raw.data with
  | none => raw
  | some p => String.mk (raw.data.take p)

/-- Whether the raw line contains the comment marker `//`
(`commentPos != std::string::npos`). -/
def hasCommentMarker (raw : String) : Bool :=
  (findSlashSlash raw.data).isSome

/-- State of the parsing loop in `ParseLayoutFile`
(src/main.cpp lines 125-132): the page flag, the already finished pages,
the accumulating current page, and the current style. -/
structure ParseState where
  inPage : Bool
  pages : List PageSpec
  cur : List LineSpec
  fontSize : Int
  r : Rat
  g : Rat
  b : Rat
  align : TextAlign
  bottomAnchor : Bool
deriving Repr, DecidableEq

/-- Initial parser state (src/main.cpp lines 126-132). -/
def initState : ParseState :=
  { inPage := false, pages := [], cur := [], fontSize := 12,
    r := 0, g := 0, b := 0, align := TextAlign.left, bottomAnchor := false }

/-- A `LineSpec` carrying the given text and the state's current style
snapshot (src/main.cpp lines 149-157 and 228-236). -/
def mkLine (st : ParseState) (text : String) : LineSpec :=
  { text := text, fontSize := st.fontSize, r := st.r, g := st.g, b := st.b,
    align := st.align, bottomAnchor := st.bottomAnchor }

/-- Style update of an opening/style directive from its parameter string
(src/main.cpp lines 190-221). -/
def applyStyleParams (st : ParseState) (params : String) : ParseState :=
  if params ≠ "" then
    let parts := SplitByComma params
    let fs := match parts.get? 0 with
      | some p0 => let v := atoi p0; if v ≤ 0 then (12 : Int) else v
      | none => st.fontSize
    let rgb := match parts.get? 1 with
      | some p1 => ColorFromName p1
      | none => ColorFromName "black"
    let al := match parts.get? 2 with
      | some p2 => AlignFromName p2
      | none => TextAlign.left
    let ba := match parts.get? 3 with
      | some p3 => decide (ToLower (Trim p3) = "bottom")
      | none => false
    { st with
        fontSize := fs
        r := rgb.1
        g := rgb.2.1
        b := rgb.2.2
        align := al
        bottomAnchor := ba }
  else
    { st with
        fontSize := 12
        r := (ColorFromName "black").1
        g := (ColorFromName "black").2.1
        b := (ColorFromName "black").2.2
        align := TextAlign.left
        bottomAnchor := false }

/-- Embeds one iteration of the `while (std::getline(...))` loop of
`ParseLayoutFile` (src/main.cpp lines 134-238). -/
def processLine (st : ParseState) (raw : String) : ParseState :=
  let beforeComment := stripComment raw
  let line := Trim beforeComment
  if line.data.isEmpty then
    let isPureComment := hasCommentMarker raw && (Trim beforeComment).data.isEmpty
    if st.inPage && !isPureComment then
      { st with cur := st.cur ++ [mkLine st ""] }
    else st
  else if line.data.head? = some '[' then
    if line.data.get? 1 = some '/' then
      if st.inPage then
        { st with pages := st.pages ++ [⟨st.cur⟩], cur := [], inPage := false }
      else st
    else
      match findCloseBracket line.data with
      | none => st
      | some closePos =>
        let params :=
          if closePos + 1 < line.data.length then
            Trim (String.mk (line.data.drop (closePos + 1)))
          else ""
        let st1 := if st.inPage then st else { st with inPage := true, cur := [] }
        applyStyleParams st1 params
  else
    if st.inPage then { st with cur := st.cur ++ [mkLine st line] }
    else st

/-- Splits file contents into the lines `std::getline` yields: segments
separated by newline, with no final empty segment after a trailing
newline, and nothing at all from an empty file. -/
def splitLinesGo : List Char → List Char → List String
  | [], cur => if cur.isEmpty then [] else [String.mk cur]
  | c :: cs, cur =>
    if c = '\n' then String.mk cur :: splitLinesGo cs []
    else splitLinesGo cs (cur ++ [c])

/-- Lines of the input file contents, as read by `std::getline`. -/
def splitLinesCpp (s : String) : List String :=
  splitLinesGo s.data []

/-- Embeds `ParseLayoutFile` (src/main.cpp lines 118-245) on the contents
of an already opened file: fold the line processor over all lines, then
flush a non-empty unterminated page (lines 240-242). -/
def ParseLayoutFile (contents : String) : List PageSpec :=
  let st := (splitLinesCpp contents).foldl processLine initState
  st.pages ++ (if st.inPage ∧ st.cur ≠ [] then [PageSpec.mk st.cur] else [])

/-- Concatenation of a list of strings, modelling sequential writes to a
stream buffer. -/
def joinS : List String → String
  | [] => ""
  | s :: rest => s ++ joinS rest

/-- Decimal digits after the point for a fraction `rem / d` with
`rem < d`, up to the given fuel (6, the `ostream` default precision;
every value the program prints needs at most 2). -/
def fracDigits (rem d : Nat) : Nat → List Char
  | 0 => []
  | fuel + 1 =>
    if rem = 0 then []
    else Char.ofNat (48 + rem * 10 / d) :: fracDigits (rem * 10 % d) d fuel

/-- Decimal rendering of a rational, matching what `operator<<(float)`
prints for the values this program computes: all of them are dyadic
rationals of magnitude below 10^6 with at most two fractional digits, so
the default 6-significant-digit float formatting prints exactly their
short decimal expansion. -/
def fmtQ (q : Rat) : String :=
  let n := q.num.natAbs
  let d := q.den
  let core := toString (n / d) ++
    (if n % d = 0 then "" else "." ++ String.mk (fracDigits (n % d) d 6))
  if q.num < 0 then "-" ++ core else core

/-- Approximate text width (src/main.cpp lines 294-295 and 315-316):
`fontSize * 0.5 * text.size()`. -/
def textWidthQ (ls : LineSpec) : Rat :=
  ((ls.fontSize : Rat) * (1/2)) * (ls.text.length : Rat)

/-- Embeds the `computeX` lambda in `BuildPageContent`
(src/main.cpp lines 267-277), with the geometry constants
pageWidth 612, leftMargin 72, rightMargin 72 inlined. -/
def computeX (ls : LineSpec) (textWidth : Rat) : Rat :=
  if ls.align = TextAlign.center then
    let x := (612 - textWidth) / 2
    if x < 72 then 72 else x
  else if ls.align = TextAlign.right then
    let x := 612 - 72 - textWidth
    if x < 72 then 72 else x
  else 72

/-- Embeds the local struct `PositionedLine` of `BuildPageContent`. -/
structure PositionedLine where
  ls : LineSpec
  x : Rat
  y : Rat
deriving Repr, DecidableEq

/-- Layout of the top-anchored lines (src/main.cpp lines 290-307): each
line is placed at the running `y`, which then decreases by
`fontSize + 4`. -/
def layoutTop : List LineSpec → Rat → List PositionedLine
  | [], _ => []
  | l :: rest, y =>
    ⟨l, computeX l (textWidthQ l), y⟩ ::
      layoutTop rest (y - ((l.fontSize : Rat) + 4))

/-- Layout of the bottom-anchored lines (src/main.cpp lines 310-327),
applied to the reversed bottom-line list: each line is placed at the
running `y`, which then increases by `fontSize + 4`. -/
def layoutBottomRev : List LineSpec → Rat → List PositionedLine
  | [], _ => []
  | l :: rest, y =>
    ⟨l, computeX l (textWidthQ l), y⟩ ::
      layoutBottomRev rest (y + ((l.fontSize : Rat) + 4))

/-- The bottom-anchored lines of a page, in declaration order
(src/main.cpp lines 280-287). -/
def bottomLinesOf (p : PageSpec) : List LineSpec :=
  p.lines.filter (fun l => l.bottomAnchor)

/-- The top-anchored lines of a page, in declaration order. -/
def topLinesOf (p : PageSpec) : List LineSpec :=
  p.lines.filter (fun l => !l.bottomAnchor)

/-- The `positioned` vector of `BuildPageContent` after both layout
loops: top lines from y = 750 downward, then the reversed bottom lines
from y = 72 upward. -/
def positionedLines (p : PageSpec) : List PositionedLine :=
  layoutTop (topLinesOf p) 750 ++ layoutBottomRev (bottomLinesOf p).reverse 72

/-- Operator text emitted for one positioned line
(src/main.cpp lines 334-344). -/
def emitLine (pl : PositionedLine) : String :=
  "/F1 " ++ toString pl.ls.fontSize ++ " Tf\n" ++
  fmtQ pl.ls.r ++ " " ++ fmtQ pl.ls.g ++ " " ++ fmtQ pl.ls.b ++ " rg\n" ++
  "1 0 0 1 " ++ fmtQ pl.x ++ " " ++ fmtQ pl.y ++ " Tm\n" ++
  "(" ++ EscapePdfString pl.ls.text ++ ") Tj\n"

/-- Embeds `BuildPageContent` (src/main.cpp lines 248-348). -/
def BuildPageContent (p : PageSpec) : String :=
  "BT\n" ++ joinS ((positionedLines p).map emitLine) ++ "ET\n"

/-- Object 1, the Catalog (src/main.cpp lines 380-386), one append per
stream insertion. -/
def catalogObj : String :=
  "1 0 obj\n" ++ "<< /Type /Catalog /Pages 2 0 R >>\n" ++ "endobj\n"

/-- Kids array text of the Pages object for `n` pages
(src/main.cpp lines 393-398). -/
def kidsStr (n : Nat) : String :=
  joinS ((List.range n).map fun i => " " ++ toString (4 + i) ++ " 0 R")

/-- Object 2, the Pages tree (src/main.cpp lines 389-402). -/
def pagesTreeObj (n : Nat) : String :=
  "2 0 obj\n" ++ "<< /Type /Pages /Kids [" ++ kidsStr n ++
  " ] /Count " ++ toString n ++ " >>\n" ++ "endobj\n"

/-- Object 3, the font resource (src/main.cpp lines 405-411). -/
def fontObj : String :=
  "3 0 obj\n" ++
  "<< /Type /Font /Subtype /Type1 /BaseFont /Helvetica >>\n" ++ "endobj\n"

/-- A page dictionary object (src/main.cpp lines 417-431), one append
per stream insertion. -/
def pageObjStr (pageObjNum contentObjNum : Nat) : String :=
  toString pageObjNum ++ " 0 obj\n" ++
  "<< /Type /Page\n" ++
  "   /Parent 2 0 R\n" ++
  "   /MediaBox [0 0 612 792]\n" ++
  "   /Resources << /Font << /F1 3 0 R >> >>\n" ++
  "   /Contents " ++ toString contentObjNum ++ " 0 R\n" ++
  ">>\n" ++
  "endobj\n"

/-- A content-stream object (src/main.cpp lines 434-447); the declared
length is the byte length of the content text. -/
def contentObjStr (contentObjNum : Nat) (content : String) : String :=
  toString contentObjNum ++ " 0 obj\n" ++
  "<< /Length " ++ toString content.length ++ " >>\n" ++
  "stream\n" ++ content ++ "\nendstream\n" ++ "endobj\n"

/-- The `objects` vector of `main` (src/main.cpp lines 374-447): a dummy
entry at index 0, then Catalog, Pages, Font, the page dictionaries
4..3+N, and the content streams 4+N..3+2N. -/
def objectsFor (pages : List PageSpec) : List String :=
  let n := pages.length
  [""] ++ [catalogObj, pagesTreeObj n, fontObj]
    ++ ((List.range n).map fun i => pageObjStr (4 + i) (4 + n + i))
    ++ ((List.range n).map fun i =>
          contentObjStr (4 + n + i) (BuildPageContent (pages.getD i ⟨[]⟩)))

/-- Version header and binary-marker comment
(src/main.cpp lines 453-454). -/
def pdfHeader : String :=
  "%PDF-1.4\n%\xE2\xE3\xCF\xD3\n"

/-- Byte offsets of sequentially written strings, the first one starting
at `start` (src/main.cpp lines 456-461: each offset is `tellp()` just
before the object is written). -/
def offsetsFrom (start : Nat) : List String → List Nat
  | [] => []
  | o :: os => start :: offsetsFrom (start + o.length) os

/-- Offsets of objects 1..numObjects in the output stream. -/
def offsetsList (pages : List PageSpec) : List Nat :=
  offsetsFrom pdfHeader.length ((objectsFor pages).drop 1)

/-- Offset of object `i` (1-based) in the output stream. -/
def offsetOf (pages : List PageSpec) (i : Nat) : Nat :=
  (offsetsList pages).getD (i - 1) 0

/-- Ten-digit zero-padded decimal, as `setw(10)` with `setfill('0')`
(src/main.cpp lines 469-471). -/
def pad10 (n : Nat) : String :=
  String.mk (List.replicate (10 - (toString n).length) '0') ++ toString n

/-- Xref table entries for objects 1..numObjects
(src/main.cpp lines 469-471). -/
def xrefEntries (pages : List PageSpec) : List String :=
  (offsetsList pages).map fun off => pad10 off ++ " 00000 n \n"

/-- Embeds the in-memory PDF assembly of `main`
(src/main.cpp lines 452-481): header, all objects in order, xref table,
trailer. -/
def pdfString (pages : List PageSpec) : String :=
  let objs := (objectsFor pages).drop 1
  let numObjects := objs.length
  let body := joinS objs
  let xo := pdfHeader.length + body.length
  pdfHeader ++ body ++
  "xref\n0 " ++ toString (numObjects + 1) ++ "\n" ++
  "0000000000 65535 f \n" ++
  joinS (xrefEntries pages) ++
  "trailer\n<< /Size " ++ toString (numObjects + 1) ++
  " /Root 1 0 R >>\nstartxref\n" ++ toString xo ++ "\n%%EOF\n"

/-- Embeds `main` (src/main.cpp lines 352-494).  I/O is modelled by
parameters: `argv` is the argument vector including the program name,
`inputFile` is `some contents` when `<name>.txt` can be opened and read,
`outWritable` says whether `<name>.pdf` can be opened for writing.  The
result is the exit code, the bytes written to the output file (if any),
and the message printed to standard output (if any). -/
def mainModel (argv : List String) (inputFile : Option String)
    (outWritable : Bool) : Nat × Option String × Option String :=
  if argv.length < 2 then (1, none, none)
  else
    match inputFile with
    | none => (1, none, none)
    | some contents =>
      let pages := ParseLayoutFile contents
      if pages = [] then (1, none, none)
      else if !outWritable then (1, none, none)
      else (0, some (pdfString pages),
            some ("Saved to '" ++ argv.getD 1 "" ++ ".pdf'\n"))

/-- Default `LineSpec`, used only as the `getD` fallback in statements. -/
def defaultLine : LineSpec :=
  { text := "", fontSize := 12, r := 0, g := 0, b := 0,
    align := TextAlign.left, bottomAnchor := false }

/-- Default `PositionedLine`, used only as the `getD` fallback in
statements. -/
def defaultPos : PositionedLine :=
  { ls := defaultLine, x := 0, y := 0 }

/-- Raw comma-separated segments of a character list: one segment per
comma boundary, kept even when empty, the final segment included.  This
is the claim-side description of comma splitting, to be compared with
`SplitByComma`. -/
def rawSegs : List Char → List (List Char)
  | [] => [[]]
  | c :: cs =>
    if c = ',' then [] :: rawSegs cs
    else
      match rawSegs cs with
      | s :: rest => (c :: s) :: rest
      | [] => [[c]]

/-- Sum of the vertical advances `fontSize + 4` of a list of lines. -/
def sumInc (l : List LineSpec) : Rat :=
  (l.map (fun ls => (ls.fontSize : Rat) + 4)).sum

/-- Claim-side description of the parts produced from raw segments: drop
the final segment when it is empty before trimming, keep every other
segment (so interior empty segments survive), and trim each kept one. -/
def segsToParts (segs : List (List Char)) : List String :=
  (if segs.getLast? = some [] then segs.dropLast else segs).map
    (fun seg => Trim (String.mk seg))

/-- A deliberately non-default parser state, exercised by the style
overwrite witness. -/
def nonDefaultState : ParseState :=
  { inPage := false, pages := [], cur := [], fontSize := 99,
    r := 1, g := 1, b := 1, align := TextAlign.right, bottomAnchor := true }

/-- The spec's footer example: two consecutive same-style bottom-anchored
lines, "Footer A" declared before "Footer B". -/
def footerPage : PageSpec :=
  ⟨[{ text := "Footer A", fontSize := 12, r := 0, g := 0, b := 0,
      align := TextAlign.left, bottomAnchor := true },
    { text := "Footer B", fontSize := 12, r := 0, g := 0, b := 0,
      align := TextAlign.left, bottomAnchor := true }]⟩

end TxtToPdf

namespace TxtToPdf

/-- C9: the translation from input text to output PDF byte stream is a
deterministic function of the input file's contents alone: two runs of
the converter on the same bytes (same argument vector, same writability
of the output path) produce identical results, in particular
byte-identical output PDFs.  The embedding `mainModel` is a pure function
of the file contents, the argument vector and output writability; the
source makes no use of time, randomness or any other environment. -/
theorem c9_deterministic (argv : List String) (outW : Bool)
    (c₁ c₂ : String) (h : c₁ = c₂) :
    mainModel argv (some c₁) outW = mainModel argv (some c₂) outW := by
  rw [h]

/-- Witness for C9 at a concrete input. -/
theorem c9_deterministic_witness :
    ("[p]\nhi" : String) = "[p]\nhi" ∧
    mainModel ["prog", "doc"] (some "[p]\nhi") true =
      mainModel ["prog", "doc"] (some "[p]\nhi") true :=
  ⟨rfl, c9_deterministic ["prog", "doc"] true "[p]\nhi" "[p]\nhi" rfl⟩

/-- C8: the program exits with code 1 exactly when the argument is
missing, the input file cannot be opened, parsing yields zero pages, or
the output file cannot be opened; otherwise it writes the full PDF byte
stream, prints the confirmation message, and exits with code 0. -/
theorem c8_exit_codes (argv : List String) (input : Option String)
    (w : Bool) :
    ((mainModel argv input w).1 = 1 ↔
      (argv.length < 2 ∨ input = none ∨
       (∃ c, input = some c ∧ ParseLayoutFile c = []) ∨ w = false)) ∧
    (∀ c, 2 ≤ argv.length → input = some c → ParseLayoutFile c ≠ [] →
      w = true →
      mainModel argv input w =
        (0, some (pdfString (ParseLayoutFile c)),
         some ("Saved to '" ++ argv.getD 1 "" ++ ".pdf'\n"))) := by
  constructor
  · unfold mainModel
    split
    · simp_all
    · rename_i hlen
      cases input with
      | none => simp
      | some c =>
        simp only
        split
        · rename_i hp
          simp [hp]
        · rename_i hp
          cases w with
          | false => simp [hp]
          | true => simp [hp]; omega
  · intro c hlen hinput hp hw
    subst hinput hw
    unfold mainModel
    rw [if_neg (by omega)]
    simp [hp]

/-- The splitting loop never returns an empty list when it still has
input or a pending accumulator. -/
theorem splitGo_ne_nil : ∀ (l cur : List Char), l ≠ [] ∨ cur ≠ [] →
    splitGo l cur ≠ []
  | [], cur, h => by
    simp only [splitGo]
    cases cur with
    | nil => simp at h
    | cons a t => simp [Trim]
  | c :: cs, cur, h => by
    simp only [splitGo]
    split
    · simp
    · exact splitGo_ne_nil cs (cur ++ [c]) (Or.inr (by simp))

/-- A non-empty parameter string always splits into at least one part. -/
theorem SplitByComma_ne_nil (s : String) (h : s ≠ "") :
    SplitByComma s ≠ [] := by
  have hd : s.data ≠ [] := by
    intro hd
    apply h
    cases s
    simp at hd
    simp [hd]
  exact splitGo_ne_nil s.data [] (Or.inl hd)

/-- Reduction of `processLine` on an opening/style directive line with a
closing bracket at `closePos`. -/
theorem processLine_directive (st : ParseState) (raw : String)
    (closePos : Nat)
    (h1 : (Trim (stripComment raw)).data.head? = some '[')
    (h2 : (Trim (stripComment raw)).data.get? 1 ≠ some '/')
    (h3 : findCloseBracket (Trim (stripComment raw)).data = some closePos) :
    processLine st raw =
      applyStyleParams
        (if st.inPage then st else { st with inPage := true, cur := [] })
        (if closePos + 1 < (Trim (stripComment raw)).data.length
         then Trim (String.mk ((Trim (stripComment raw)).data.drop
           (closePos + 1)))
         else "") := by
  have hne : (Trim (stripComment raw)).data.isEmpty = false := by
    cases h : (Trim (stripComment raw)).data with
    | nil => rw [h] at h1; exact absurd h1 (by simp)
    | cons a l => rfl
  simp only [processLine, hne, h1, h3, if_neg h2]
  simp

/-- Field-by-field description of the style update for a non-empty
parameter string. -/
theorem applyStyleParams_spec (st : ParseState) (params : String)
    (hp : params ≠ "") :
    (applyStyleParams st params).inPage = st.inPage ∧
    (applyStyleParams st params).pages = st.pages ∧
    (applyStyleParams st params).cur = st.cur ∧
    (applyStyleParams st params).fontSize =
      (if atoi ((SplitByComma params).getD 0 "") ≤ 0 then 12
       else atoi ((SplitByComma params).getD 0 "")) ∧
    ((applyStyleParams st params).r, (applyStyleParams st params).g,
      (applyStyleParams st params).b) =
      (if 2 ≤ (SplitByComma params).length then
        ColorFromName ((SplitByComma params).getD 1 "")
       else (0, 0, 0)) ∧
    (applyStyleParams st params).align =
      (if 3 ≤ (SplitByComma params).length then
        AlignFromName ((SplitByComma params).getD 2 "")
       else TextAlign.left) ∧
    ((applyStyleParams st params).bottomAnchor = true ↔
      4 ≤ (SplitByComma params).length ∧
        ToLower (Trim ((SplitByComma params).getD 3 "")) = "bottom") := by
  have hblack : ColorFromName "black" = (0, 0, 0) := by decide
  unfold applyStyleParams
  rw [if_pos hp]
  obtain _ | ⟨p0, _ | ⟨p1, _ | ⟨p2, _ | ⟨p3, rest⟩⟩⟩⟩ :
      ∃ l, SplitByComma params = l := ⟨_, rfl⟩
  all_goals rename_i hsp
  · exact absurd hsp (SplitByComma_ne_nil params hp)
  · simp [hsp, hblack]
  · simp [hsp, hblack]
  · simp [hsp]
  · simp [hsp]

/-- The style reset performed by a directive with empty parameters. -/
theorem applyStyleParams_empty (st : ParseState) :
    applyStyleParams st "" =
      { st with
          fontSize := 12
          r := 0
          g := 0
          b := 0
          align := TextAlign.left
          bottomAnchor := false } := by
  have hblack : ColorFromName "black" = (0, 0, 0) := by decide
  simp [applyStyleParams, hblack]

/-- C4: a page-opening/style directive with a non-empty parameter string
overwrites the entire current style from the comma-split parts (font
size from part 0 with fallback 12 when the parse yields a value at most
0; color from part 1 else black; alignment from part 2 else left;
bottom-anchor true iff part 3 is present and case-insensitively equals
"bottom"); with an empty parameter string the style is reset to the
defaults 12, black, left, top-anchored. -/
theorem c4_style_directive (st : ParseState) (raw : String)
    (closePos : Nat)
    (h1 : (Trim (stripComment raw)).data.head? = some '[')
    (h2 : (Trim (stripComment raw)).data.get? 1 ≠ some '/')
    (h3 : findCloseBracket (Trim (stripComment raw)).data = some closePos) :
    let params :=
      if closePos + 1 < (Trim (stripComment raw)).data.length then
        Trim (String.mk ((Trim (stripComment raw)).data.drop (closePos + 1)))
      else ""
    let parts := SplitByComma params
    let res := processLine st raw
    res.inPage = true ∧
    res.pages = st.pages ∧
    res.cur = (if st.inPage = true then st.cur else []) ∧
    (params ≠ "" →
      parts ≠ [] ∧
      res.fontSize =
        (if atoi (parts.getD 0 "") ≤ 0 then 12 else atoi (parts.getD 0 "")) ∧
      (res.r, res.g, res.b) =
        (if 2 ≤ parts.length then ColorFromName (parts.getD 1 "")
         else (0, 0, 0)) ∧
      res.align =
        (if 3 ≤ parts.length then AlignFromName (parts.getD 2 "")
         else TextAlign.left) ∧
      (res.bottomAnchor = true ↔
        4 ≤ parts.length ∧ ToLower (Trim (parts.getD 3 "")) = "bottom")) ∧
    (params = "" →
      res.fontSize = 12 ∧ res.r = 0 ∧ res.g = 0 ∧ res.b = 0 ∧
      res.align = TextAlign.left ∧ res.bottomAnchor = false) := by
  intro params parts res
  have hres : res =
      applyStyleParams
        (if st.inPage then st else { st with inPage := true, cur := [] })
        params :=
    processLine_directive st raw closePos h1 h2 h3
  set st1 := if st.inPage then st else { st with inPage := true, cur := [] }
    with hst1
  have hIn : st1.inPage = true := by
    rw [hst1]; split <;> simp_all
  have hPages : st1.pages = st.pages := by
    rw [hst1]; split <;> rfl
  have hCur : st1.cur = (if st.inPage = true then st.cur else []) := by
    rw [hst1]; split <;> simp_all
  by_cases hp : params = ""
  · rw [hp, applyStyleParams_empty] at hres
    refine ⟨?_, ?_, ?_, fun hne => absurd hp hne, fun _ => ?_⟩
    · rw [hres]; simpa using hIn
    · rw [hres]; simpa using hPages
    · rw [hres]; simpa using hCur
    · rw [hres]; simp
  · obtain ⟨hi, hpg, hc, hfs, hrgb, hal, hba⟩ :=
      applyStyleParams_spec st1 params hp
    refine ⟨?_, ?_, ?_,
      fun _ => ⟨SplitByComma_ne_nil params hp, ?_, ?_, ?_, ?_⟩,
      fun he => absurd he hp⟩
    · rw [hres, hi, hIn]
    · rw [hres, hpg, hPages]
    · rw [hres, hc, hCur]
    · rw [hres]; exact hfs
    · rw [hres]; exact hrgb
    · rw [hres]; exact hal
    · rw [hres]; exact hba

/-- Witness for C4: the directive `[p] 14, red, center, BOTTOM` applied
to a non-default style overwrites every style field. -/
theorem c4_style_directive_witness :
    (processLine nonDefaultState "[p] 14, red, center, BOTTOM").fontSize
      = 14 ∧
    ((processLine nonDefaultState "[p] 14, red, center, BOTTOM").r,
     (processLine nonDefaultState "[p] 14, red, center, BOTTOM").g,
     (processLine nonDefaultState "[p] 14, red, center, BOTTOM").b)
      = (1, 0, 0) ∧
    (processLine nonDefaultState "[p] 14, red, center, BOTTOM").align
      = TextAlign.center ∧
    (processLine nonDefaultState "[p] 14, red, center, BOTTOM").bottomAnchor
      = true := by
  have h := c4_style_directive nonDefaultState "[p] 14, red, center, BOTTOM"
    2 (by decide) (by decide) (by decide)
  obtain ⟨-, -, -, h4, -⟩ := h
  obtain ⟨-, hfs, hrgb, hal, hba⟩ := h4 (by decide)
  refine ⟨?_, ?_, ?_, ?_⟩
  · rw [hfs]; decide
  · rw [hrgb]; decide
  · rw [hal]; decide
  · exact hba.mpr (by decide)

/-- C5: an input line that after comment stripping and trimming starts
with `[`, is not a closing tag, and has no closing `]` causes no state
change at all: the parser neither enters a page nor modifies the style
nor appends anything, and processing simply continues. -/
theorem c5_malformed_directive_skipped (st : ParseState) (raw : String)
    (h1 : (Trim (stripComment raw)).data.head? = some '[')
    (h2 : (Trim (stripComment raw)).data.get? 1 ≠ some '/')
    (h3 : findCloseBracket (Trim (stripComment raw)).data = none) :
    processLine st raw = st := by
  have hne : (Trim (stripComment raw)).data.isEmpty = false := by
    cases h : (Trim (stripComment raw)).data with
    | nil => rw [h] at h1; exact absurd h1 (by simp)
    | cons a l => rfl
  simp only [processLine, hne, h1, h3, if_neg h2]
  simp

/-- Witness for C5: the spec's own example line `[badpage`. -/
theorem c5_malformed_directive_skipped_witness :
    processLine initState "[badpage" = initState :=
  c5_malformed_directive_skipped initState "[badpage"
    (by decide) (by decide) (by decide)

/-- C7: a line that is empty after comment stripping and trimming emits
nothing when it contained a `//` marker (pure comment); otherwise, inside
a page it appends a spacer line with empty text and the full current
style snapshot, and outside a page it is ignored. -/
theorem c7_blank_line_spacer (st : ParseState) (raw : String)
    (h : Trim (stripComment raw) = "") :
    (hasCommentMarker raw = true → processLine st raw = st) ∧
    (hasCommentMarker raw = false → st.inPage = true →
      processLine st raw = { st with cur := st.cur ++ [mkLine st ""] }) ∧
    (hasCommentMarker raw = false → st.inPage = false →
      processLine st raw = st) := by
  have hdata : (Trim (stripComment raw)).data = [] := by rw [h]
  refine ⟨fun hm => ?_, fun hm hin => ?_, fun hm hin => ?_⟩
  · simp [processLine, hdata, hm]
  · simp [processLine, hdata, hm, hin]
  · simp [processLine, hdata, hm, hin]

/-- Witness for C7: a whitespace-only line inside a page appends a
spacer carrying the current style. -/
theorem c7_blank_line_spacer_witness :
    processLine { initState with inPage := true } "   " =
      { { initState with inPage := true } with
          cur := { initState with inPage := true }.cur ++
            [mkLine { initState with inPage := true } ""] } :=
  (c7_blank_line_spacer { initState with inPage := true } "   "
    (by decide)).2.1 (by decide) rfl

/-- C6: at end of input, an unterminated page is appended to the output
exactly when it has at least one line: non-empty trailing pages are
accepted, empty ones are silently dropped. -/
theorem c6_eof_flush (contents : String)
    (hin : ((splitLinesCpp contents).foldl processLine initState).inPage
      = true) :
    (((splitLinesCpp contents).foldl processLine initState).cur ≠ [] →
      ParseLayoutFile contents =
        ((splitLinesCpp contents).foldl processLine initState).pages ++
          [PageSpec.mk
            ((splitLinesCpp contents).foldl processLine initState).cur]) ∧
    (((splitLinesCpp contents).foldl processLine initState).cur = [] →
      ParseLayoutFile contents =
        ((splitLinesCpp contents).foldl processLine initState).pages) := by
  unfold ParseLayoutFile
  constructor
  · intro hc
    simp [hin, hc]
  · intro hc
    simp [hc]

/-- Witness for C6: an unterminated non-empty trailing page is kept. -/
theorem c6_eof_flush_witness :
    ParseLayoutFile "[p]\nhi" =
      ((splitLinesCpp "[p]\nhi").foldl processLine initState).pages ++
        [PageSpec.mk
          ((splitLinesCpp "[p]\nhi").foldl processLine initState).cur] :=
  (c6_eof_flush "[p]\nhi" (by decide)).1 (by decide)

/-- The bottom layout loop positions as many lines as it is given. -/
theorem layoutBottomRev_length :
    ∀ (l : List LineSpec) (y : Rat), (layoutBottomRev l y).length = l.length
  | [], _ => rfl
  | a :: t, y => by
    simp only [layoutBottomRev, List.length_cons]
    rw [layoutBottomRev_length t]

/-- Closed form of the bottom layout loop: the line at index `k` of the
processed list is placed at the start `y` plus the advances of all lines
processed before it. -/
theorem layoutBottomRev_getD :
    ∀ (l : List LineSpec) (y : Rat) (k : Nat), k < l.length →
      (layoutBottomRev l y).getD k defaultPos =
        ⟨l.getD k defaultLine,
         computeX (l.getD k defaultLine) (textWidthQ (l.getD k defaultLine)),
         y + sumInc (l.take k)⟩
  | [], _, k, hk => absurd hk (by simp)
  | a :: t, y, 0, _ => by
    simp [layoutBottomRev, sumInc]
  | a :: t, y, k + 1, hk => by
    have ih := layoutBottomRev_getD t (y + ((a.fontSize : Rat) + 4)) k
      (by simpa using Nat.lt_of_succ_lt_succ hk)
    simp only [layoutBottomRev, List.getD_cons_succ, ih, List.take_succ_cons]
    simp [sumInc]
    ring

/-- Advance sum over one more taken element. -/
theorem sumInc_take_succ (l : List LineSpec) (k : Nat) (hk : k < l.length) :
    sumInc (l.take (k + 1)) =
      sumInc (l.take k) + (((l.getD k defaultLine).fontSize : Rat) + 4) := by
  have h1 : l.take (k + 1) = l.take k ++ [l.getD k defaultLine] := by
    rw [List.take_succ, List.getElem?_eq_getElem hk,
      List.getD_eq_getElem l defaultLine hk]
    rfl
  rw [h1]
  simp [sumInc]

/-- C3: the bottom-anchored lines of a page are positioned by iterating
over them in reverse declaration order: the last bottom-anchored line
declared gets y = 72, and each bottom-anchored line earlier in
declaration order gets the y of its successor plus the successor's
fontSize + 4.  The positioned entry at index `length - 1 - j` of the
bottom layout is the bottom-anchored line of declaration index `j`. -/
theorem c3_bottom_anchor_layout (p : PageSpec) :
    let bs := bottomLinesOf p
    let m := bs.length
    let bpos := layoutBottomRev bs.reverse 72
    positionedLines p = layoutTop (topLinesOf p) 750 ++ bpos ∧
    bpos.length = m ∧
    (∀ j, j < m →
      (bpos.getD (m - 1 - j) defaultPos).ls = bs.getD j defaultLine) ∧
    (1 ≤ m → (bpos.getD 0 defaultPos).y = 72) ∧
    (∀ j, j + 1 < m →
      (bpos.getD (m - 1 - j) defaultPos).y =
        (bpos.getD (m - 1 - (j + 1)) defaultPos).y +
          (((bs.getD (j + 1) defaultLine).fontSize : Rat) + 4)) := by
  intro bs m bpos
  have hmrev : bs.reverse.length = m := by simp [m]
  have hrev : ∀ j, j < m →
      bs.reverse.getD (m - 1 - j) defaultLine = bs.getD j defaultLine := by
    intro j hj
    rw [List.getD_eq_getElem _ _ (by omega : m - 1 - j < bs.reverse.length),
      List.getD_eq_getElem _ _ (by omega : j < bs.length),
      List.getElem_reverse]
    congr 1
    omega
  refine ⟨rfl, ?_, ?_, ?_, ?_⟩
  · rw [layoutBottomRev_length, hmrev]
  · intro j hj
    rw [layoutBottomRev_getD bs.reverse 72 (m - 1 - j) (by omega)]
    exact hrev j hj
  · intro hm
    rw [layoutBottomRev_getD bs.reverse 72 0 (by omega)]
    simp [sumInc]
  · intro j hj
    rw [layoutBottomRev_getD bs.reverse 72 (m - 1 - j) (by omega),
      layoutBottomRev_getD bs.reverse 72 (m - 1 - (j + 1)) (by omega)]
    have hidx : m - 1 - j = (m - 1 - (j + 1)) + 1 := by omega
    rw [hidx, sumInc_take_succ bs.reverse (m - 1 - (j + 1)) (by omega)]
    have hsucc : bs.reverse.getD (m - 1 - (j + 1)) defaultLine =
        bs.getD (j + 1) defaultLine := hrev (j + 1) hj
    rw [hsucc]
    ring

/-- Witness for C3: in the footer example, "Footer B" (declared last) is
placed at y = 72 and "Footer A" at y = 72 + 12 + 4 = 88. -/
theorem c3_bottom_anchor_layout_witness :
    ((layoutBottomRev (bottomLinesOf footerPage).reverse 72).getD 0
        defaultPos).y = 72 ∧
    ((layoutBottomRev (bottomLinesOf footerPage).reverse 72).getD 1
        defaultPos).y = 88 := by
  obtain ⟨-, -, -, h4, h5⟩ := c3_bottom_anchor_layout footerPage
  have hB : ((layoutBottomRev (bottomLinesOf footerPage).reverse 72).getD 0
      defaultPos).y = 72 := h4 (by decide)
  refine ⟨hB, ?_⟩
  have hA := h5 0 (by decide)
  rw [show (bottomLinesOf footerPage).length - 1 - 0 = 1 from by decide,
    show (bottomLinesOf footerPage).length - 1 - (0 + 1) = 0 from by decide]
    at hA
  rw [hA, hB,
    show ((bottomLinesOf footerPage).getD (0 + 1)
      defaultLine).fontSize = 12 from by decide]
  norm_num

/-- Raw segment lists are never empty. -/
theorem rawSegs_ne_nil : ∀ l : List Char, rawSegs l ≠ []
  | [] => by simp [rawSegs]
  | c :: cs => by
    simp only [rawSegs]
    split
    · simp
    · cases h : rawSegs cs with
      | nil => simp
      | cons s rest => simp

/-- A comma-free character list is a single raw segment. -/
theorem rawSegs_no_comma : ∀ l : List Char, ',' ∉ l → rawSegs l = [l]
  | [], _ => rfl
  | c :: cs, h => by
    have hc : ¬c = ',' := fun hc => h (by simp [hc])
    have ih := rawSegs_no_comma cs (fun hm => h (by simp [hm]))
    simp only [rawSegs, if_neg hc, ih]

/-- Splitting off the first comma after a comma-free prefix. -/
theorem rawSegs_append_comma :
    ∀ (cur cs : List Char), ',' ∉ cur →
      rawSegs (cur ++ ',' :: cs) = cur :: rawSegs cs
  | [], cs, _ => by simp [rawSegs]
  | a :: t, cs, h => by
    have ha : ¬a = ',' := fun ha => h (by simp [ha])
    have ih := rawSegs_append_comma t cs (fun hm => h (by simp [hm]))
    simp only [List.cons_append, rawSegs, if_neg ha, List.append_eq, ih]

/-- Peeling the head segment off `segsToParts`. -/
theorem segsToParts_cons (a : List Char) (segs : List (List Char))
    (h : segs ≠ []) :
    segsToParts (a :: segs) = Trim (String.mk a) :: segsToParts segs := by
  cases segs with
  | nil => exact absurd rfl h
  | cons b t =>
    unfold segsToParts
    rw [List.getLast?_cons_cons]
    split
    · rw [List.dropLast_cons₂, List.map_cons]
    · rw [List.map_cons]

/-- The splitting loop agrees with the claim-side segment description:
with a comma-free accumulator `cur`, `splitGo l cur` yields the parts of
`cur ++ l`. -/
theorem splitGo_eq_segsToParts :
    ∀ (l cur : List Char), ',' ∉ cur →
      splitGo l cur = segsToParts (rawSegs (cur ++ l))
  | [], cur, h => by
    rw [List.append_nil, rawSegs_no_comma cur h]
    unfold splitGo segsToParts
    cases cur with
    | nil => simp
    | cons a t => simp
  | c :: cs, cur, h => by
    by_cases hc : c = ','
    · subst hc
      rw [rawSegs_append_comma cur cs h,
        segsToParts_cons cur (rawSegs cs) (rawSegs_ne_nil cs)]
      unfold splitGo
      rw [if_pos rfl,
        splitGo_eq_segsToParts cs [] (by simp), List.nil_append]
    · have h' : ',' ∉ cur ++ [c] := by
        intro hm
        rcases List.mem_append.mp hm with hm1 | hm2
        · exact h hm1
        · exact hc (Eq.symm (by simpa using hm2))
      unfold splitGo
      rw [if_neg hc, splitGo_eq_segsToParts cs (cur ++ [c]) h',
        List.append_assoc, List.singleton_append]

/-- A trailing comma in a style parameter list changes nothing. -/
theorem applyStyleParams_trailing_comma (t : ParseState) :
    applyStyleParams t "14, red," = applyStyleParams t "14, red" := by
  have hsp : SplitByComma "14, red," = SplitByComma "14, red" := by decide
  unfold applyStyleParams
  rw [if_pos (show ("14, red," : String) ≠ "" by decide),
    if_pos (show ("14, red" : String) ≠ "" by decide)]
  simp only [hsp]

/-- C10: comma splitting keeps interior empty segments (each comma
always produces a part) but drops a final segment that is empty before
trimming; consequently the directive `[p] 14, red,` behaves exactly as
`[p] 14, red`, while a whitespace-only final segment is kept as an empty
part. -/
theorem c10_comma_split_semantics :
    (∀ s : String, SplitByComma s = segsToParts (rawSegs s.data)) ∧
    (∀ st : ParseState,
      processLine st "[p] 14, red," = processLine st "[p] 14, red") ∧
    SplitByComma "14, red, " = ["14", "red", ""] := by
  refine ⟨fun s => ?_, fun st => ?_, by decide⟩
  · have h := splitGo_eq_segsToParts s.data [] (by simp)
    rw [List.nil_append] at h
    exact h
  · have e1 := processLine_directive st "[p] 14, red," 2
      (by decide) (by decide) (by decide)
    have e2 := processLine_directive st "[p] 14, red" 2
      (by decide) (by decide) (by decide)
    rw [e1, e2,
      show (if 2 + 1 < (Trim (stripComment "[p] 14, red,")).data.length then
          Trim (String.mk ((Trim (stripComment "[p] 14, red,")).data.drop
            (2 + 1)))
        else "") = "14, red," from by decide,
      show (if 2 + 1 < (Trim (stripComment "[p] 14, red")).data.length then
          Trim (String.mk ((Trim (stripComment "[p] 14, red")).data.drop
            (2 + 1)))
        else "") = "14, red" from by decide]
    exact applyStyleParams_trailing_comma _

/-- Normal form of the object vector as a four-element head followed by
the page dictionaries and the content streams. -/
theorem objectsFor_eq (pages : List PageSpec) :
    objectsFor pages =
      ["", catalogObj, pagesTreeObj pages.length, fontObj] ++
        ((List.range pages.length).map fun i =>
          pageObjStr (4 + i) (4 + pages.length + i)) ++
        ((List.range pages.length).map fun i =>
          contentObjStr (4 + pages.length + i)
            (BuildPageContent (pages.getD i ⟨[]⟩))) := rfl

/-- The object vector holds the dummy entry plus 3 + 2N objects. -/
theorem objectsFor_length (pages : List PageSpec) :
    (objectsFor pages).length = 4 + 2 * pages.length := by
  rw [objectsFor_eq]
  simp
  omega

/-- The Kids array lists exactly the object numbers 4 through 3 + n. -/
theorem kidsStr_eq (n : Nat) :
    kidsStr n =
      joinS ((List.range' 4 n).map fun k => " " ++ toString k ++ " 0 R") := by
  rw [List.range'_eq_map_range, List.map_map]
  rfl

/-- Page dictionaries start with their own object marker. -/
theorem pageObjStr_marker (k c : Nat) :
    ∃ rest, pageObjStr k c = toString k ++ " 0 obj\n" ++ rest := by
  refine ⟨"<< /Type /Page\n" ++ ("   /Parent 2 0 R\n" ++
    ("   /MediaBox [0 0 612 792]\n" ++
    ("   /Resources << /Font << /F1 3 0 R >> >>\n" ++
    ("   /Contents " ++ (toString c ++ (" 0 R\n" ++
    (">>\n" ++ "endobj\n"))))))), ?_⟩
  simp only [pageObjStr, String.append_assoc]

/-- Content-stream objects start with their own object marker. -/
theorem contentObjStr_marker (k : Nat) (content : String) :
    ∃ rest, contentObjStr k content = toString k ++ " 0 obj\n" ++ rest := by
  refine ⟨"<< /Length " ++ (toString content.length ++ (" >>\n" ++
    ("stream\n" ++ (content ++ ("\nendstream\n" ++ "endobj\n"))))), ?_⟩
  simp only [contentObjStr, String.append_assoc]

/-- Entry `i` of the object vector for `4 ≤ i < 4 + N` is the page
dictionary numbered `i` with content object `N + i`. -/
theorem objectsFor_getD_page (pages : List PageSpec) (i : Nat)
    (h4 : 4 ≤ i) (hlt : i < 4 + pages.length) :
    (objectsFor pages).getD i "" = pageObjStr i (pages.length + i) := by
  rw [objectsFor_eq, List.getD_eq_getElem?_getD]
  rw [List.getElem?_append_left (by simp; omega)]
  rw [List.getElem?_append_right (by simp; omega)]
  have hi : i - List.length ["", catalogObj, pagesTreeObj pages.length,
      fontObj] = i - 4 := by simp
  rw [hi, List.getElem?_map, List.getElem?_range (by omega)]
  simp only [Option.map_some', Option.getD_some]
  congr 1 <;> omega

/-- Entry `i` of the object vector for `4 + N ≤ i < 4 + 2N` is the
content-stream object numbered `i`, holding the content built from page
`i - 4 - N`. -/
theorem objectsFor_getD_content (pages : List PageSpec) (i : Nat)
    (h4 : 4 + pages.length ≤ i) (hlt : i < 4 + 2 * pages.length) :
    (objectsFor pages).getD i "" =
      contentObjStr i
        (BuildPageContent (pages.getD (i - 4 - pages.length) ⟨[]⟩)) := by
  rw [objectsFor_eq, List.getD_eq_getElem?_getD]
  rw [List.getElem?_append_right (by simp; omega)]
  have hi : i - (List.length (["", catalogObj, pagesTreeObj pages.length,
      fontObj] ++ ((List.range pages.length).map fun i =>
        pageObjStr (4 + i) (4 + pages.length + i)))) =
      i - 4 - pages.length := by simp; omega
  rw [hi, List.getElem?_map, List.getElem?_range (by omega)]
  simp only [Option.map_some', Option.getD_some]
  congr 1
  omega

/-- Every numbered entry of the object vector starts with its own
`i 0 obj` marker. -/
theorem objectsFor_marker (pages : List PageSpec) (i : Nat)
    (h1 : 1 ≤ i) (h2 : i < (objectsFor pages).length) :
    ∃ rest, (objectsFor pages).getD i "" =
      toString i ++ " 0 obj\n" ++ rest := by
  rw [objectsFor_length] at h2
  by_cases hi1 : i = 1
  · subst hi1
    exact ⟨"<< /Type /Catalog /Pages 2 0 R >>\n" ++ "endobj\n", rfl⟩
  by_cases hi2 : i = 2
  · subst hi2
    refine ⟨"<< /Type /Pages /Kids [" ++ (kidsStr pages.length ++
      (" ] /Count " ++ (toString pages.length ++ (" >>\n" ++
        "endobj\n")))), ?_⟩
    show pagesTreeObj pages.length = _
    rw [pagesTreeObj,
      show ("2 0 obj\n" : String) = "2" ++ " 0 obj\n" from rfl,
      show (toString 2 : String) = "2" from rfl]
    simp only [String.append_assoc]
  by_cases hi3 : i = 3
  · subst hi3
    exact ⟨"<< /Type /Font /Subtype /Type1 /BaseFont /Helvetica >>\n" ++
      "endobj\n", rfl⟩
  by_cases hpage : i < 4 + pages.length
  · rw [objectsFor_getD_page pages i (by omega) hpage]
    exact pageObjStr_marker i (pages.length + i)
  · rw [objectsFor_getD_content pages i (by omega) (by omega)]
    exact contentObjStr_marker i _

/-- C1: for N ≥ 1 pages the assembler emits exactly 3 + 2N numbered
objects in ascending order: object 1 is the Catalog referencing object
2, object 2 is the Pages tree whose Kids array lists exactly objects 4
through 3 + N in order with Count N, object 3 is the font resource,
objects 4..3+N are the page dictionaries and objects 4+N..3+2N the
content streams, with page dictionary 3+i referencing content object
3+N+i. -/
theorem c1_object_numbering (pages : List PageSpec)
    (hN : 1 ≤ pages.length) :
    let n := pages.length
    let objs := objectsFor pages
    objs.length = 4 + 2 * n ∧
    objs.getD 0 "" = "" ∧
    (∀ i, 1 ≤ i → i ≤ 3 + 2 * n →
      ∃ rest, objs.getD i "" = toString i ++ " 0 obj\n" ++ rest) ∧
    objs.getD 1 "" = "1 0 obj\n<< /Type /Catalog /Pages 2 0 R >>\nendobj\n" ∧
    objs.getD 2 "" =
      "2 0 obj\n<< /Type /Pages /Kids [" ++
        joinS ((List.range' 4 n).map fun k => " " ++ toString k ++ " 0 R") ++
        (" ] /Count " ++ toString n ++ " >>\nendobj\n") ∧
    objs.getD 3 "" =
      "3 0 obj\n<< /Type /Font /Subtype /Type1 /BaseFont /Helvetica >>\nendobj\n" ∧
    (∀ i, 1 ≤ i → i ≤ n →
      objs.getD (3 + i) "" = pageObjStr (3 + i) (3 + n + i) ∧
      objs.getD (3 + n + i) "" =
        contentObjStr (3 + n + i)
          (BuildPageContent (pages.getD (i - 1) ⟨[]⟩)) ∧
      ∃ pre post, objs.getD (3 + i) "" =
        pre ++ ("/Contents " ++ toString (3 + n + i) ++ " 0 R\n") ++ post) := by
  dsimp only
  refine ⟨objectsFor_length pages, rfl, ?_, rfl, ?_, rfl, ?_⟩
  · intro i hi1 hi2
    exact objectsFor_marker pages i hi1 (by rw [objectsFor_length]; omega)
  · show pagesTreeObj pages.length = _
    rw [pagesTreeObj, kidsStr_eq,
      show ("2 0 obj\n<< /Type /Pages /Kids [" : String) =
        "2 0 obj\n" ++ "<< /Type /Pages /Kids [" from rfl,
      show (" >>\nendobj\n" : String) = " >>\n" ++ "endobj\n" from rfl]
    simp only [String.append_assoc]
  · intro i hi1 hi2
    have hpg := objectsFor_getD_page pages (3 + i) (by omega) (by omega)
    have hct := objectsFor_getD_content pages (3 + pages.length + i)
      (by omega) (by omega)
    rw [show pages.length + (3 + i) = 3 + pages.length + i from by omega]
      at hpg
    rw [show 3 + pages.length + i - 4 - pages.length = i - 1 from by omega]
      at hct
    refine ⟨hpg, hct, ?_⟩
    rw [hpg]
    refine ⟨toString (3 + i) ++ (" 0 obj\n" ++ ("<< /Type /Page\n" ++
      ("   /Parent 2 0 R\n" ++ ("   /MediaBox [0 0 612 792]\n" ++
      ("   /Resources << /Font << /F1 3 0 R >> >>\n" ++ "   "))))),
      ">>\n" ++ "endobj\n", ?_⟩
    rw [pageObjStr,
      show ("   /Contents " : String) = "   " ++ "/Contents " from rfl]
    simp only [String.append_assoc]

/-- Witness for C1 at a concrete two-page document. -/
theorem c1_object_numbering_witness :
    (objectsFor [footerPage, footerPage]).length =
      4 + 2 * [footerPage, footerPage].length ∧
    (objectsFor [footerPage, footerPage]).getD (3 + 1) "" =
      pageObjStr (3 + 1) (3 + [footerPage, footerPage].length + 1) ∧
    (objectsFor [footerPage, footerPage]).getD
        (3 + [footerPage, footerPage].length + 1) "" =
      contentObjStr (3 + [footerPage, footerPage].length + 1)
        (BuildPageContent ([footerPage, footerPage].getD (1 - 1) ⟨[]⟩)) := by
  obtain ⟨hlen, -, -, -, -, -, hpc⟩ :=
    c1_object_numbering [footerPage, footerPage] (by decide)
  obtain ⟨hp, hc, -⟩ := hpc 1 (by decide) (by decide)
  exact ⟨hlen, hp, hc⟩

/-- One offset is recorded per object written. -/
theorem offsetsFrom_length :
    ∀ (l : List String) (start : Nat), (offsetsFrom start l).length = l.length
  | [], _ => rfl
  | o :: os, start => by
    simp [offsetsFrom, offsetsFrom_length os]

/-- Sequentially written strings decompose the buffer at the recorded
offsets: the entry at index `k` starts exactly `offset - start` bytes
into the concatenation. -/
theorem joinS_decomp :
    ∀ (objs : List String) (start k : Nat), k < objs.length →
      ∃ pre post, joinS objs = pre ++ objs.getD k "" ++ post ∧
        start + pre.length = (offsetsFrom start objs).getD k 0
  | [], _, k, hk => absurd hk (by simp)
  | o :: os, start, 0, _ => by
    refine ⟨"", joinS os, ?_, ?_⟩
    · show joinS (o :: os) = "" ++ o ++ joinS os
      rw [String.empty_append]
      rfl
    · show start + ("" : String).length = (offsetsFrom start (o :: os)).getD 0 0
      simp [offsetsFrom]
  | o :: os, start, k + 1, hk => by
    obtain ⟨pre, post, h1, h2⟩ := joinS_decomp os (start + o.length) k
      (by simpa using Nat.lt_of_succ_lt_succ hk)
    refine ⟨o ++ pre, post, ?_, ?_⟩
    · show joinS (o :: os) = (o ++ pre) ++ (o :: os).getD (k + 1) "" ++ post
      rw [show joinS (o :: os) = o ++ joinS os from rfl, h1,
        List.getD_cons_succ]
      simp only [String.append_assoc]
    · show start + (o ++ pre).length = (offsetsFrom start (o :: os)).getD (k + 1) 0
      rw [String.length_append,
        show offsetsFrom start (o :: os) =
          start :: offsetsFrom (start + o.length) os from rfl,
        List.getD_cons_succ, ← h2]
      omega

/-- C2: for every object number `i`, the byte offset recorded for object
`i` in the xref table equals the index in the output byte stream at
which the serialization of object `i` (its `i 0 obj` marker) begins,
counting from the very first byte of the stream. -/
theorem c2_xref_offsets (pages : List PageSpec) (hN : pages ≠ [])
    (i : Nat) (h1 : 1 ≤ i) (h2 : i ≤ 3 + 2 * pages.length) :
    (xrefEntries pages).getD (i - 1) "" =
      pad10 (offsetOf pages i) ++ " 00000 n \n" ∧
    ∃ pre post,
      pdfString pages = (pre ++ (toString i ++ " 0 obj\n")) ++ post ∧
      pre.length = offsetOf pages i := by
  have hlen : ((objectsFor pages).drop 1).length = 3 + 2 * pages.length := by
    rw [List.length_drop, objectsFor_length]
    omega
  have hk : i - 1 < ((objectsFor pages).drop 1).length := by
    rw [hlen]; omega
  constructor
  · have hko : i - 1 < (offsetsList pages).length := by
      rw [offsetsList, offsetsFrom_length, hlen]; omega
    rw [xrefEntries, List.getD_eq_getElem?_getD, List.getElem?_map,
      List.getElem?_eq_getElem hko]
    simp only [Option.map_some', Option.getD_some]
    rw [offsetOf, List.getD_eq_getElem _ _ hko]
  · obtain ⟨pre0, post0, hdec, hoff⟩ :=
      joinS_decomp ((objectsFor pages).drop 1) pdfHeader.length (i - 1) hk
    have hobj : ((objectsFor pages).drop 1).getD (i - 1) "" =
        (objectsFor pages).getD i "" := by
      rw [List.getD_eq_getElem?_getD, List.getD_eq_getElem?_getD,
        List.getElem?_drop, show 1 + (i - 1) = i from by omega]
    obtain ⟨rest0, hmk⟩ := objectsFor_marker pages i h1
      (by rw [objectsFor_length]; omega)
    rw [hobj, hmk] at hdec
    refine ⟨pdfHeader ++ pre0, rest0 ++ (post0 ++ ("xref\n0 " ++
      (toString (((objectsFor pages).drop 1).length + 1) ++ ("\n" ++
      ("0000000000 65535 f \n" ++ (joinS (xrefEntries pages) ++
      ("trailer\n<< /Size " ++
      (toString (((objectsFor pages).drop 1).length + 1) ++
      (" /Root 1 0 R >>\nstartxref\n" ++
      (toString (pdfHeader.length +
        (pre0 ++ ((toString i ++ " 0 obj\n") ++ rest0) ++ post0).length) ++
      "\n%%EOF\n")))))))))), ?_, ?_⟩
    · show pdfString pages = _
      unfold pdfString
      dsimp only
      rw [hdec]
      simp only [String.append_assoc]
    · rw [String.length_append, hoff]
      rfl

/-- Witness for C2: the first object of a one-page document. -/
theorem c2_xref_offsets_witness :
    ((xrefEntries [footerPage]).getD (1 - 1) "" =
      pad10 (offsetOf [footerPage] 1) ++ " 00000 n \n") ∧
    ∃ pre post,
      pdfString [footerPage] = (pre ++ (toString 1 ++ " 0 obj\n")) ++ post ∧
      pre.length = offsetOf [footerPage] 1 :=
  c2_xref_offsets [footerPage] (by decide) 1 (by decide) (by decide)

/-- Witness for C8 at a concrete successful run. -/
theorem c8_exit_codes_witness :
    mainModel ["prog", "doc"] (some "[p]\nhi") true =
      (0, some (pdfString (ParseLayoutFile "[p]\nhi")),
       some ("Saved to '" ++ (["prog", "doc"].getD 1 "") ++ ".pdf'\n")) :=
  (c8_exit_codes ["prog", "doc"] (some "[p]\nhi") true).2 "[p]\nhi"
    (by decide) rfl (by decide) rfl

end TxtToPdf
